import Mathlib

/-!
Verification of the expression-graph construction and composition layer of the
`ee_mcp` geospatial tool server (`src/ee_mcp/handlers.py`).

The handlers build lazy Earth-Engine expression graphs: every client-side
operation (`image.gt(...)`, `fc.filter(...)`, ...) appends a function-invocation
node to a tree that is later serialized to a flat JSON value table and evaluated
remotely.  We embed the in-memory graph as an inductive `Node` type, each
Earth-Engine client call as a node-building function, and each handler of
`handlers.py` as a Lean function over nodes.  Fallible handlers (raising
IndexError / TypeError / KeyError / ValueError in Python) return `Except`.
-/

namespace GeeMcp

/-- A constant literal stored in a graph node (`constantValue` on the wire):
numbers, strings and booleans cover every constant the handlers create. -/
inductive Lit where
  | num (q : ℚ)
  | str (s : String)
  | boolean (b : Bool)
deriving DecidableEq, Repr

/-- The in-memory expression-graph node.  `fn tag name args` is a
FunctionInvocation node carrying its type tag (the Earth-Engine client class of
the value it denotes: "Image", "FeatureCollection", "Feature", "Number",
"Filter", "Reducer", "ErrorMargin", "Geometry"), the invoked function's name,
and its named arguments.  `argRef` is an ArgumentReference (the variable bound
by an enclosing mapped lambda).  Graphs are pure trees here; sharing is
introduced only by the serializer's deduplication. -/
inductive Node where
  | const (v : Lit)
  | fn (tag : String) (name : String) (args : List (String × Node))
  | argRef (name : String)
deriving Repr

mutual

/-- Structural (boolean) equality of nodes. -/
def Node.beq : Node → Node → Bool
  | .const v, .const w => v == w
  | .argRef s, .argRef t => s == t
  | .fn t f args, .fn t' f' args' => t == t' && f == f' && Node.argsBeq args args'
  | _, _ => false

/-- Structural equality of argument lists. -/
def Node.argsBeq : List (String × Node) → List (String × Node) → Bool
  | [], [] => true
  | (k, n) :: r, (k', n') :: r' => k == k' && Node.beq n n' && Node.argsBeq r r'
  | _, _ => false

end

/-- Induction over `Node` that hands the inductive hypothesis to every argument
of a function-invocation node. -/
def Node.induct (P : Node → Prop)
    (hconst : ∀ v, P (.const v))
    (hargRef : ∀ s, P (.argRef s))
    (hfn : ∀ t f args, (∀ p ∈ args, P p.2) → P (.fn t f args)) :
    ∀ n, P n
  | .const v => hconst v
  | .argRef s => hargRef s
  | .fn t f args => hfn t f args (fun p hp =>
      have key : sizeOf p.2 < 1 + sizeOf t + sizeOf f + sizeOf args := by
        have h1 : sizeOf p < sizeOf args := List.sizeOf_lt_of_mem hp
        have h2 : sizeOf p.2 ≤ sizeOf p := by
          obtain ⟨a, b⟩ := p
          simp only [Prod.mk.sizeOf_spec]
          omega
        omega
      Node.induct P hconst hargRef hfn p.2)
termination_by n => sizeOf n

/-- The Python handlers discriminate raster from vector inputs with
`isinstance(x, Image)`; in the embedding a node is an Image exactly when its
type tag is "Image". -/
def Node.isImage : Node → Bool
  | .fn tag _ _ => tag = "Image"
  | _ => false

/-! ### Earth-Engine client calls used by the handlers

Each definition below embeds one call of the `ee` client library as the
function-invocation node that call constructs. -/

/-- `ee.Number(q)` on a plain numeric literal: a constant node. -/
def eeNumber (q : ℚ) : Node := Node.const (Lit.num q)

/-- `ee.Image(asset_id)`: a single-image load node. -/
def imageLoad (assetId : String) : Node :=
  Node.fn "Image" "Image.load" [("id", Node.const (Lit.str assetId))]

/-- `ee.ImageCollection(asset_id)`: an image-collection load node. -/
def imageCollectionLoad (assetId : String) : Node :=
  Node.fn "ImageCollection" "ImageCollection.load" [("id", Node.const (Lit.str assetId))]

/-- `collection.mosaic()`. -/
def icMosaic (collection : Node) : Node :=
  Node.fn "Image" "ImageCollection.mosaic" [("collection", collection)]

/-- `image.gt(value)`: the "greater-than" comparison node. -/
def imageGt (image value : Node) : Node :=
  Node.fn "Image" "Image.gt" [("image1", image), ("image2", value)]

/-- `image.lt(value)`: the "less-than" comparison node. -/
def imageLt (image value : Node) : Node :=
  Node.fn "Image" "Image.lt" [("image1", image), ("image2", value)]

/-- `image.lte(value)`: the "less-than-or-equal" comparison node. -/
def imageLte (image value : Node) : Node :=
  Node.fn "Image" "Image.lte" [("image1", image), ("image2", value)]

/-- `image.unmask(value)`: replaces masked pixels by `value`. -/
def imageUnmask (image value : Node) : Node :=
  Node.fn "Image" "Image.unmask" [("input", image), ("value", value)]

/-- `image.updateMask(mask)`. -/
def imageUpdateMask (image mask : Node) : Node :=
  Node.fn "Image" "Image.updateMask" [("image", image), ("mask", mask)]

/-- `a.Or(b)`: pairwise logical OR of two binary images. -/
def imageOr (a b : Node) : Node :=
  Node.fn "Image" "Image.or" [("image1", a), ("image2", b)]

/-- `a.And(b)`: pairwise logical AND of two binary images. -/
def imageAnd (a b : Node) : Node :=
  Node.fn "Image" "Image.and" [("image1", a), ("image2", b)]

/-- `ee.FeatureCollection(table_id)`: a table-load node. -/
def fcLoadTable (tableId : String) : Node :=
  Node.fn "FeatureCollection" "Collection.loadTable"
    [("tableId", Node.const (Lit.str tableId))]

/-- `ee.FeatureCollection(geometry)`: wraps a geometry into a collection. -/
def fcFromGeometry (geometry : Node) : Node :=
  Node.fn "FeatureCollection" "Collection" [("features", geometry)]

/-- `collection.filter(f)`. -/
def fcFilter (collection f : Node) : Node :=
  Node.fn "FeatureCollection" "Collection.filter"
    [("collection", collection), ("filter", f)]

/-- `ee.Filter.eq(field, value)`: an equality filter node. -/
def filterEq (field : String) (value : Node) : Node :=
  Node.fn "Filter" "Filter.equals"
    [("leftField", Node.const (Lit.str field)), ("rightValue", value)]

/-- `collection.first()`. -/
def collFirst (collection : Node) : Node :=
  Node.fn "Feature" "Collection.first" [("collection", collection)]

/-- `element.getNumber(property)`: reads a numeric property of a feature. -/
def getNumberNode (element : Node) (property : String) : Node :=
  Node.fn "Number" "Element.getNumber"
    [("element", element), ("property", Node.const (Lit.str property))]

/-- `a.gt(b)` on numbers. -/
def numberGt (a b : Node) : Node :=
  Node.fn "Number" "Number.gt" [("left", a), ("right", b)]

/-- `ee.Algorithms.If(condition, trueCase, falseCase)`: the embedded
conditional, evaluated remotely. -/
def ifNode (condition trueCase falseCase : Node) : Node :=
  Node.fn "Number" "If"
    [("condition", condition), ("trueCase", trueCase), ("falseCase", falseCase)]

/-- `collection.geometry()`. -/
def collGeometry (collection : Node) : Node :=
  Node.fn "Geometry" "Collection.geometry" [("collection", collection)]

/-- `feature.geometry()`. -/
def featureGeometry (feature : Node) : Node :=
  Node.fn "Geometry" "Feature.geometry" [("feature", feature)]

/-- `geometry.simplify(maxError)`. -/
def geomSimplify (geometry maxError : Node) : Node :=
  Node.fn "Geometry" "Geometry.simplify"
    [("geometry", geometry), ("maxError", maxError)]

/-- `a.intersection(b, maxError)` on geometries. -/
def geomIntersection (a b maxError : Node) : Node :=
  Node.fn "Geometry" "Geometry.intersection"
    [("left", a), ("right", b), ("maxError", maxError)]

/-- `ee.ErrorMargin(v)`: the tolerance wrapper node. -/
def errorMargin (v : ℚ) : Node :=
  Node.fn "ErrorMargin" "ErrorMargin" [("value", Node.const (Lit.num v))]

/-- `ee.Feature(x)`: the feature constructor node. -/
def featureCtor (x : Node) : Node :=
  Node.fn "Feature" "Feature" [("geometry", x)]

/-- `element.copyProperties(source)`: copies the non-geometry properties of
`source` onto `destination`. -/
def copyPropertiesNode (destination source : Node) : Node :=
  Node.fn "Feature" "Element.copyProperties"
    [("destination", destination), ("source", source)]

/-- `a.merge(b)` on feature collections. -/
def fcMerge (a b : Node) : Node :=
  Node.fn "FeatureCollection" "FeatureCollection.merge"
    [("collection1", a), ("collection2", b)]

/-- `collection.union()`: dissolves a collection's features into one. -/
def fcUnion (collection : Node) : Node :=
  Node.fn "FeatureCollection" "Collection.union" [("collection", collection)]

/-- `collection.map(algorithm)`: `algorithm` is the body of the mapped lambda,
containing `Node.argRef mappedVarName` where it uses the bound feature. -/
def fcMap (collection algorithm : Node) : Node :=
  Node.fn "FeatureCollection" "Collection.map"
    [("collection", collection), ("baseAlgorithm", algorithm)]

/-- The name the client gives the variable bound by a mapped lambda. -/
def mappedVarName : String := "_MAPPING_VAR_0_0"

/-! ### Error model

Python exceptions raised by the handlers, as a typed error value. -/

inductive HandlerError where
  | indexOutOfRange
  | typeError (msg : String)
  | keyError (msg : String)
  | valueError (msg : String)
deriving DecidableEq, Repr

/-! ### Supporting types from `schemas.py` -/

/-- The recognized reducers (`REDUCERS` in `schemas.py`). -/
inductive Reducer where
  | mean | max | min | sum | median | std
deriving DecidableEq, Repr

/-- The reducer's name string, as used both for `getattr(Reducer, reducer)` and
as the per-feature property key holding the reducer's output. -/
def Reducer.name : Reducer → String
  | .mean => "mean"
  | .max => "max"
  | .min => "min"
  | .sum => "sum"
  | .median => "median"
  | .std => "std"

/-- The recognized area types (`AREA_TYPES` in `schemas.py`). -/
inductive AreaType where
  | country | admin1
deriving DecidableEq, Repr

/-- The fields of `DatasetMetadata` (`schemas.py`) that
`handle_get_dataset_image` reads. -/
structure DatasetMetadata where
  asset_id : String
  mosaic : Bool
deriving DecidableEq, Repr

/-- `TH_SHAPE_AREA` (`handlers.py` line 23). -/
def TH_SHAPE_AREA : ℚ := 33

/-- Modelled placeholder: `COUNTRY_BOUNDRIES_DATASET` is imported from a
`constants` module that is not part of the handler sources; its value is an
opaque table identifier and no claim depends on it. -/
def COUNTRY_BOUNDRIES_DATASET : String := "COUNTRY_BOUNDRIES_DATASET"

/-- Modelled placeholder: `ADMIN_LEVEL_1_BOUNDRIES_DATASET`, as above. -/
def ADMIN_LEVEL_1_BOUNDRIES_DATASET : String := "ADMIN_LEVEL_1_BOUNDRIES_DATASET"

/-! ### The composition handlers of `handlers.py`

Handlers receive their inputs already deserialized (`fromJSON(...)` in the
source) as `Node` graphs and return the graph they build (`....serialize()` in
the source); fallible handlers return `Except HandlerError Node`. -/

/-- `handle_get_dataset_image` (`handlers.py` lines 42-78).  The metadata
lookup `load_datasets_metadata(path)[dataset]` is injected as `lookup`;
`lookup dataset = none` is the source's `KeyError` path. -/
def handle_get_dataset_image (lookup : String → Option DatasetMetadata)
    (dataset : String) : Except HandlerError Node :=
  match lookup dataset with
  | none => .error (.keyError ("Invalid dataset " ++ dataset))
  | some metadata =>
      if metadata.mosaic then
        .ok (icMosaic (imageCollectionLoad metadata.asset_id))
      else
        let image := imageLoad metadata.asset_id
        if dataset = "agricultural_drought" then
          .ok (imageUpdateMask image (imageLte image (eeNumber 100)))
        else
          .ok image

/-- `handle_mask_image` (`handlers.py` lines 81-94). -/
def handle_mask_image (image mask : Node) : Node :=
  imageUpdateMask image mask

/-- `handle_filter_image_by_threshold` (`handlers.py` lines 97-116):
`image.lt(threshold_ee) if threshold < 0 else image.gt(threshold_ee)`. -/
def handle_filter_image_by_threshold (image : Node) (threshold : ℚ) : Node :=
  if threshold < 0 then imageLt image (eeNumber threshold)
  else imageGt image (eeNumber threshold)

/-- The loop of `handle_union_binary_images`: `union = union.Or(new.unmask(0))`
over the remaining operands. -/
def unionLoop (union : Node) : List Node → Node
  | [] => union
  | newData :: rest => unionLoop (imageOr union (imageUnmask newData (eeNumber 0))) rest

/-- `handle_union_binary_images` (`handlers.py` lines 119-138): indexes the
first operand (IndexError on an empty list), unmasks it with 0, then folds the
rest with `Or`, unmasking each with 0 first. -/
def handle_union_binary_images (binary_images : List Node) : Except HandlerError Node :=
  match binary_images with
  | [] => .error .indexOutOfRange
  | first :: rest => .ok (unionLoop (imageUnmask first (eeNumber 0)) rest)

/-- The loop of `handle_intersect_binary_images`:
`intersection = intersection.And(new)`. -/
def intersectLoop (intersection : Node) : List Node → Node
  | [] => intersection
  | newData :: rest => intersectLoop (imageAnd intersection newData) rest

/-- `handle_intersect_binary_images` (`handlers.py` lines 141-159): indexes the
first operand (IndexError on an empty list) and folds the rest with `And`; no
unmasking anywhere. -/
def handle_intersect_binary_images (binary_images : List Node) : Except HandlerError Node :=
  match binary_images with
  | [] => .error .indexOutOfRange
  | first :: rest => .ok (intersectLoop first rest)

/-- `intersect_feature` (`handlers.py` lines 234-249):
`Feature(Feature(feature.geometry().intersection(fc.geometry(),
ErrorMargin(100))).copyProperties(feature))`. -/
def intersect_feature (feature feature_collection : Node) : Node :=
  featureCtor
    (copyPropertiesNode
      (featureCtor
        (geomIntersection (featureGeometry feature)
          (collGeometry feature_collection) (errorMargin 100)))
      feature)

/-- The loop of `handle_intersect_feature_collections`: each remaining
collection is type-checked, then the accumulator is mapped through
`intersect_feature` against it. -/
def intersectFcLoop (intersection : Node) : List Node → Except HandlerError Node
  | [] => .ok intersection
  | newFc :: rest =>
      if newFc.isImage then .error (.typeError "Image cannot be intersected")
      else
        intersectFcLoop
          (fcMap intersection (intersect_feature (Node.argRef mappedVarName) newFc)) rest

/-- `handle_intersect_feature_collections` (`handlers.py` lines 162-196). -/
def handle_intersect_feature_collections (feature_collections : List Node) :
    Except HandlerError Node :=
  match feature_collections with
  | [] => .error .indexOutOfRange
  | first :: rest =>
      if first.isImage then .error (.typeError "Image cannot be intersected")
      else intersectFcLoop first rest

/-- The loop of `handle_merge_feature_collections`:
`union = union.merge(new).union()` after type-checking each element. -/
def mergeFcLoop (union : Node) : List Node → Except HandlerError Node
  | [] => .ok union
  | newData :: rest =>
      if newData.isImage then .error (.typeError "Image cannot be unioned")
      else mergeFcLoop (fcUnion (fcMerge union newData)) rest

/-- `handle_merge_feature_collections` (`handlers.py` lines 199-231). -/
def handle_merge_feature_collections (feature_collections : List Node) :
    Except HandlerError Node :=
  match feature_collections with
  | [] => .error .indexOutOfRange
  | first :: rest =>
      if first.isImage then .error (.typeError "Image cannot be unioned")
      else mergeFcLoop first rest

/-! ### Region reduction (`handle_reduce_image`) -/

/-- One entry of `stats["features"]`: its `properties` dict, holding the
reducer's output value under the reducer's name. -/
structure FeatStat where
  properties : Reducer → ℚ

/-- `getattr(Reducer, reducer)()`: the reducer node. -/
def reducerNode (reducer : Reducer) : Node :=
  Node.fn "Reducer" ("Reducer." ++ reducer.name) []

/-- `image.reduceRegions(reducer, collection, scale, crs="EPSG:4326")`. -/
def reduceRegionsNode (image collection : Node) (reducer : Reducer) (scale : ℚ) : Node :=
  Node.fn "FeatureCollection" "Image.reduceRegions"
    [("image", image), ("collection", collection),
     ("reducer", reducerNode reducer), ("scale", eeNumber scale),
     ("crs", Node.const (Lit.str "EPSG:4326"))]

/-- The aggregation loop of `handle_reduce_image`: starts at 0 and adds
`feature["properties"][reducer]` for every returned feature. -/
def aggregationLoop (acc : ℚ) (reducer : Reducer) : List FeatStat → ℚ
  | [] => acc
  | feature :: rest => aggregationLoop (acc + feature.properties reducer) reducer rest

/-- `handle_reduce_image` (`handlers.py` lines 252-294).  The one remote
round-trip `reduced.getInfo()` is injected as `getInfo`, mapping the graph sent
to the backend to `none` (Python `None`) or to the returned per-feature
statistics list (`stats["features"]`). -/
def handle_reduce_image (getInfo : Node → Option (List FeatStat))
    (image feature_collection : Node) (reducer : Reducer) (scale : ℚ) :
    Except HandlerError ℚ :=
  let reduced := reduceRegionsNode image feature_collection reducer scale
  match getInfo reduced with
  | none => .error (.valueError "No statistics found")
  | some stats => .ok (aggregationLoop 0 reducer stats)

/-! ### Zone resolution (`handle_get_zone_of_area`) -/

/-- `handle_get_zone_of_area` (`handlers.py` lines 297-331).  The pycountry
lookup `get_country_code` (an external best-effort normalizer) is injected as
`getCode`. -/
def handle_get_zone_of_area (getCode : String → String) (area_name : String)
    (area_type : AreaType) : Node :=
  match area_type with
  | .country =>
      let code := getCode area_name
      let countries_boundries := fcLoadTable COUNTRY_BOUNDRIES_DATASET
      let area_boundry :=
        fcFilter countries_boundries (filterEq "iso3" (Node.const (Lit.str code)))
      let shape_area := getNumberNode (collFirst area_boundry) "Shape_Area"
      let simplification_tolerance :=
        ifNode (numberGt shape_area (eeNumber TH_SHAPE_AREA))
          (eeNumber 10000) (eeNumber 100)
      fcFromGeometry (geomSimplify (collGeometry area_boundry) simplification_tolerance)
  | .admin1 =>
      fcFilter (fcLoadTable ADMIN_LEVEL_1_BOUNDRIES_DATASET)
        (filterEq "shapeName" (Node.const (Lit.str area_name)))

/-- The `maxError` argument of the simplification node of a resolved zone
graph, when the graph has one. -/
def zoneToleranceArg : Node → Option Node
  | Node.fn _ "Collection"
      [(_, Node.fn _ "Geometry.simplify" [(_, _), (_, tolerance)])] => some tolerance
  | _ => none

/-- Modelled from the spec: remote evaluation of the embedded simplification
conditional.  The remote evaluator is not part of the handler sources; per the
spec it computes `If(condition, trueCase, falseCase)` by evaluating the
`gt` comparison of the matched boundary's shape-area — whose evaluated value is
`sa` — against the constant threshold, and selecting the corresponding constant
branch. -/
def evalToleranceNode (sa : ℚ) : Node → Option ℚ
  | Node.fn _ "If"
      [(_, Node.fn _ "Number.gt" [(_, _), (_, Node.const (Lit.num c))]),
       (_, Node.const (Lit.num t)),
       (_, Node.const (Lit.num f))] => some (if c < sa then t else f)
  | _ => none

/-! ### The wire form: deduplicating serializer and deserializer

Modelled from the spec: the serializer and deserializer live in the external
`ee` client library (`image.serialize()`, `ee.deserializer.fromJSON`), not in
the handler sources.  Per the spec, the wire form is a flat table of
integer-id-indexed node encodings plus a distinguished `result` id; the
serializer walks the graph depth-first, assigns each structurally distinct
subgraph one id (structural deduplication: an already-seen subgraph is
referenced by id, never re-emitted), with every dependency emitted before its
dependents; the deserializer processes ids in an order where references are
already satisfied, resolving each reference to the node it names.  Ids here
are positions in the `values` list.  A function-invocation encoding carries the
node's type tag alongside its function name so the round trip preserves type
tags. -/

/-- A serialized node encoding.  Arguments of a function invocation are
references (ids into the value table). -/
inductive WireValue where
  | constantValue (v : Lit)
  | functionInvocationValue (tag : String) (name : String) (args : List (String × Nat))
  | argumentReference (name : String)
deriving DecidableEq, Repr

/-- The serialized wire document: the flat value table plus the root id. -/
structure WireDoc where
  values : List WireValue
  result : Nat
deriving DecidableEq, Repr

/-- The id the deduplication table assigns to `n`: the position of its first
occurrence. -/
def idOf : List Node → Node → Nat
  | [], _ => 0
  | m :: rest, n => if Node.beq m n then 0 else idOf rest n + 1

/-- Record a node in the deduplication table: an already-present node is not
re-emitted. -/
def pushNode (memo : List Node) (n : Node) : List Node :=
  if memo.any (fun m => Node.beq m n) then memo else memo ++ [n]

mutual

/-- Depth-first serialization walk: emits every argument subgraph of a node
before the node itself, deduplicating along the way. -/
def serNode : Node → List Node → List Node
  | .const v, memo => pushNode memo (.const v)
  | .argRef s, memo => pushNode memo (.argRef s)
  | .fn t f args, memo => pushNode (serArgs args memo) (.fn t f args)

/-- Serializes each argument's subgraph in order. -/
def serArgs : List (String × Node) → List Node → List Node
  | [], memo => memo
  | (_, n) :: rest, memo => serArgs rest (serNode n memo)

end

/-- Encode one table entry, replacing each argument subgraph by its id. -/
def encodeNode (memo : List Node) : Node → WireValue
  | .const v => .constantValue v
  | .argRef s => .argumentReference s
  | .fn t f args => .functionInvocationValue t f (args.map (fun p => (p.1, idOf memo p.2)))

/-- Serialize a graph: walk it collecting the deduplicated value table, then
encode each entry and point `result` at the root's id. -/
def serialize (g : Node) : WireDoc :=
  let memo := serNode g []
  { values := memo.map (encodeNode memo), result := idOf memo g }

/-- Resolve the argument references of one encoding against the
already-deserialized table entries; fails on a dangling (undefined or
forward/self, i.e. cyclic) reference. -/
def decodeArgs (acc : List Node) : List (String × Nat) → Option (List (String × Node))
  | [] => some []
  | (k, i) :: rest =>
      match acc[i]? with
      | none => none
      | some n => (decodeArgs acc rest).map (fun ds => (k, n) :: ds)

/-- Deserialize one table entry against the already-deserialized entries. -/
def decodeValue (acc : List Node) : WireValue → Option Node
  | .constantValue v => some (.const v)
  | .argumentReference s => some (.argRef s)
  | .functionInvocationValue t f args => (decodeArgs acc args).map (fun ds => Node.fn t f ds)

/-- Deserialize the value table in ascending id order, so every reference is
already satisfied when it is resolved. -/
def decodeTable (acc : List Node) : List WireValue → Option (List Node)
  | [] => some acc
  | v :: rest =>
      match decodeValue acc v with
      | none => none
      | some n => decodeTable (acc ++ [n]) rest

/-- Deserialize a wire document into the graph rooted at its `result` id;
fails on a malformed document. -/
def deserialize (doc : WireDoc) : Option Node :=
  match decodeTable [] doc.values with
  | none => none
  | some nodes => nodes[doc.result]?

/-! ### Round-trip correctness of the wire form -/

/-- Every immediate argument subgraph of `n` occurs in `l`. -/
def childrenIn (n : Node) (l : List Node) : Prop :=
  match n with
  | .fn _ _ args => ∀ p ∈ args, p.2 ∈ l
  | _ => True

/-- A well-formed deduplication table: every entry's argument subgraphs occur
strictly earlier in the table. -/
def goodMemo (memo : List Node) : Prop :=
  ∀ i n, memo[i]? = some n → childrenIn n (memo.take i)

mutual

/-- Whether the graph contains a function-invocation node named `fname`. -/
def Node.usesFn (fname : String) : Node → Bool
  | .const _ => false
  | .argRef _ => false
  | .fn _ g args => g == fname || Node.argsUseFn fname args

/-- Whether any argument subgraph contains a node named `fname`. -/
def Node.argsUseFn (fname : String) : List (String × Node) → Bool
  | [] => false
  | (_, n) :: rest => Node.usesFn fname n || Node.argsUseFn fname rest

end

/-! ## Theorems -/

theorem Node.argsBeq_correct (args args' : List (String × Node))
    (ih : ∀ p ∈ args, ∀ b, (Node.beq p.2 b = true) ↔ p.2 = b) :
    (Node.argsBeq args args' = true) ↔ args = args' := by
  induction args generalizing args' with
  | nil => cases args' <;> simp [Node.argsBeq]
  | cons p r ihr =>
      cases args' with
      | nil => simp [Node.argsBeq]
      | cons q r' =>
          obtain ⟨k, n⟩ := p
          obtain ⟨k', n'⟩ := q
          simp only [Node.argsBeq, Bool.and_eq_true, beq_iff_eq, List.cons.injEq,
            Prod.mk.injEq]
          constructor
          · rintro ⟨⟨hk, hn⟩, hr⟩
            exact ⟨⟨hk, (ih (k, n) (by simp) n').mp hn⟩,
              (ihr r' (fun p hp => ih p (by simp [hp]))).mp hr⟩
          · rintro ⟨⟨hk, hn⟩, hr⟩
            exact ⟨⟨hk, (ih (k, n) (by simp) n').mpr hn⟩,
              (ihr r' (fun p hp => ih p (by simp [hp]))).mpr hr⟩

theorem Node.beq_correct : ∀ a b : Node, (Node.beq a b = true) ↔ a = b := by
  intro a
  induction a using Node.induct with
  | hconst v => intro b; cases b <;> simp [Node.beq]
  | hargRef s => intro b; cases b <;> simp [Node.beq]
  | hfn t f args ih =>
      intro b
      cases b with
      | const w => simp [Node.beq]
      | argRef s => simp [Node.beq]
      | fn t' f' args' =>
          simp only [Node.beq, Bool.and_eq_true, beq_iff_eq, Node.fn.injEq]
          rw [Node.argsBeq_correct args args' ih]
          tauto

theorem childrenIn_of_subset {n : Node} {l l' : List Node}
    (hsub : ∀ x ∈ l, x ∈ l') (h : childrenIn n l) : childrenIn n l' := by
  cases n with
  | fn t f args =>
      simp only [childrenIn] at h ⊢
      exact fun p hp => hsub p.2 (h p hp)
  | const v => trivial
  | argRef s => trivial

theorem getElem?_take_idOf {l : List Node} {n : Node} {k : Nat} (h : n ∈ l.take k) :
    (l.take k)[idOf l n]? = some n := by
  induction l generalizing k with
  | nil => simp at h
  | cons m rest ih =>
      cases k with
      | zero => simp at h
      | succ k =>
          simp only [List.take_succ_cons] at h ⊢
          by_cases hm : m = n
          · subst hm
            simp [idOf, (Node.beq_correct m m).mpr rfl]
          · have hn : n ∈ rest.take k := by
              rcases List.mem_cons.mp h with h1 | h1
              · exact absurd h1.symm hm
              · exact h1
            have hb : ¬ (Node.beq m n = true) := fun hb => hm ((Node.beq_correct m n).mp hb)
            simp only [idOf, if_neg hb]
            simpa using ih hn

theorem getElem?_idOf {l : List Node} {n : Node} (h : n ∈ l) : l[idOf l n]? = some n := by
  have h' : n ∈ l.take l.length := by rw [List.take_length l]; exact h
  have := getElem?_take_idOf h'
  rwa [List.take_length l] at this

theorem decodeArgs_encode {memo : List Node} {k : Nat}
    (args : List (String × Node)) (h : ∀ p ∈ args, p.2 ∈ memo.take k) :
    decodeArgs (memo.take k) (args.map (fun p => (p.1, idOf memo p.2))) = some args := by
  induction args with
  | nil => simp [decodeArgs]
  | cons q rest ih =>
      obtain ⟨s, n⟩ := q
      have hmem : n ∈ memo.take k := h (s, n) (by simp)
      simp only [List.map_cons, decodeArgs, getElem?_take_idOf hmem,
        ih (fun p hp => h p (by simp [hp]))]
      rfl

theorem decodeValue_encode {memo : List Node} {k : Nat} {n : Node}
    (h : childrenIn n (memo.take k)) :
    decodeValue (memo.take k) (encodeNode memo n) = some n := by
  cases n with
  | const v => rfl
  | argRef s => rfl
  | fn t f args =>
      simp only [childrenIn] at h
      simp only [encodeNode, decodeValue, decodeArgs_encode args h]
      rfl

theorem decodeTable_encode : ∀ (rest done memo : List Node),
    memo = done ++ rest → goodMemo memo →
    decodeTable done (rest.map (encodeNode memo)) = some memo := by
  intro rest
  induction rest with
  | nil =>
      intro done memo hm _
      simp only [List.append_nil] at hm
      simp [decodeTable, hm]
  | cons n rest ih =>
      intro done memo hm hg
      have hidx : memo[done.length]? = some n := by
        subst hm
        rw [List.getElem?_append_right (le_refl done.length)]
        simp
      have htake : memo.take done.length = done := by
        subst hm
        exact List.take_left done (n :: rest)
      have hchild : childrenIn n (memo.take done.length) := by
        rw [htake]
        have := hg done.length n hidx
        rwa [htake] at this
      have hdv : decodeValue done (encodeNode memo n) = some n := by
        rw [← htake]
        exact decodeValue_encode hchild
      simp only [List.map_cons, decodeTable, hdv]
      exact ih (done ++ [n]) memo (by rw [hm, List.append_assoc]; rfl) hg

theorem pushNode_extend (memo : List Node) (n : Node) :
    ∃ ext, pushNode memo n = memo ++ ext := by
  unfold pushNode
  split
  · exact ⟨[], by simp⟩
  · exact ⟨[n], rfl⟩

theorem mem_pushNode (memo : List Node) (n : Node) : n ∈ pushNode memo n := by
  unfold pushNode
  split
  · next h =>
      obtain ⟨m, hm, hbeq⟩ := List.any_eq_true.mp h
      have : m = n := (Node.beq_correct m n).mp hbeq
      subst this
      exact hm
  · simp

theorem goodMemo_pushNode {memo : List Node} {n : Node}
    (hg : goodMemo memo) (hc : childrenIn n memo) : goodMemo (pushNode memo n) := by
  unfold pushNode
  split
  · exact hg
  · intro i m hi
    by_cases hlt : i < memo.length
    · rw [List.getElem?_append_left hlt] at hi
      rw [List.take_append_of_le_length (le_of_lt hlt)]
      exact hg i m hi
    · rw [List.getElem?_append_right (not_lt.mp hlt)] at hi
      have hzero : i - memo.length = 0 := by
        by_contra hne
        rw [List.getElem?_eq_none (by simp; omega)] at hi
        exact Option.noConfusion hi
      have hieq : i = memo.length := by omega
      rw [hzero] at hi
      simp only [List.getElem?_cons_zero, Option.some.injEq] at hi
      subst hi
      rw [hieq, List.take_left memo _]
      exact hc

theorem serArgs_spec (args : List (String × Node))
    (ih : ∀ p ∈ args, ∀ memo, goodMemo memo →
      (∃ ext, serNode p.2 memo = memo ++ ext) ∧ goodMemo (serNode p.2 memo) ∧
        p.2 ∈ serNode p.2 memo) :
    ∀ memo, goodMemo memo →
      (∃ ext, serArgs args memo = memo ++ ext) ∧ goodMemo (serArgs args memo) ∧
        ∀ p ∈ args, p.2 ∈ serArgs args memo := by
  induction args with
  | nil =>
      intro memo hg
      exact ⟨⟨[], by simp [serArgs]⟩, by simpa [serArgs] using hg, by simp⟩
  | cons q rest ihr =>
      intro memo hg
      obtain ⟨s, n⟩ := q
      obtain ⟨⟨ext1, he1⟩, hg1, hm1⟩ := ih (s, n) (by simp) memo hg
      obtain ⟨⟨ext2, he2⟩, hg2, hm2⟩ :=
        ihr (fun p hp => ih p (by simp [hp])) (serNode n memo) hg1
      have heq : serArgs ((s, n) :: rest) memo = serArgs rest (serNode n memo) := rfl
      refine ⟨⟨ext1 ++ ext2, by rw [heq, he2, he1, List.append_assoc]⟩,
        by rw [heq]; exact hg2, ?_⟩
      intro p hp
      rcases List.mem_cons.mp hp with h1 | h1
      · subst h1
        rw [heq, he2]
        exact List.mem_append_left ext2 hm1
      · rw [heq]
        exact hm2 p h1

theorem serNode_spec : ∀ (n : Node) (memo : List Node), goodMemo memo →
    (∃ ext, serNode n memo = memo ++ ext) ∧ goodMemo (serNode n memo) ∧
      n ∈ serNode n memo := by
  intro n
  induction n using Node.induct with
  | hconst v =>
      intro memo hg
      exact ⟨pushNode_extend _ _, goodMemo_pushNode hg trivial, mem_pushNode _ _⟩
  | hargRef s =>
      intro memo hg
      exact ⟨pushNode_extend _ _, goodMemo_pushNode hg trivial, mem_pushNode _ _⟩
  | hfn t f args ih =>
      intro memo hg
      obtain ⟨⟨ext1, he1⟩, hg1, hmem⟩ := serArgs_spec args ih memo hg
      have hc : childrenIn (Node.fn t f args) (serArgs args memo) := by
        simp only [childrenIn]
        exact hmem
      have heq : serNode (Node.fn t f args) memo =
          pushNode (serArgs args memo) (Node.fn t f args) := rfl
      refine ⟨?_, ?_, ?_⟩
      · obtain ⟨ext2, he2⟩ := pushNode_extend (serArgs args memo) (Node.fn t f args)
        exact ⟨ext1 ++ ext2, by rw [heq, he2, he1, List.append_assoc]⟩
      · rw [heq]
        exact goodMemo_pushNode hg1 hc
      · rw [heq]
        exact mem_pushNode _ _

/-! ### Handler loop characterizations -/

theorem unionLoop_eq_foldl (l : List Node) : ∀ acc,
    unionLoop acc l = l.foldl (fun u n => imageOr u (imageUnmask n (eeNumber 0))) acc := by
  induction l with
  | nil => intro acc; rfl
  | cons n rest ih =>
      intro acc
      simp only [unionLoop, List.foldl_cons]
      exact ih _

theorem intersectLoop_eq_foldl (l : List Node) : ∀ acc,
    intersectLoop acc l = l.foldl (fun inter n => imageAnd inter n) acc := by
  induction l with
  | nil => intro acc; rfl
  | cons n rest ih =>
      intro acc
      simp only [intersectLoop, List.foldl_cons]
      exact ih _

theorem intersectFcLoop_error (l : List Node) (h : ∃ x ∈ l, x.isImage = true) :
    ∀ acc, intersectFcLoop acc l = .error (.typeError "Image cannot be intersected") := by
  induction l with
  | nil => simp at h
  | cons n rest ih =>
      intro acc
      by_cases hn : n.isImage = true
      · simp [intersectFcLoop, hn]
      · obtain ⟨x, hx, hxi⟩ := h
        rcases List.mem_cons.mp hx with h1 | h1
        · exact absurd (h1 ▸ hxi) hn
        · simp only [intersectFcLoop, if_neg hn]
          exact ih ⟨x, h1, hxi⟩ _

theorem intersectFcLoop_ok (l : List Node) (h : ∀ x ∈ l, x.isImage = false) :
    ∀ acc, intersectFcLoop acc l =
      .ok (l.foldl
        (fun acc fc => fcMap acc (intersect_feature (Node.argRef mappedVarName) fc)) acc) := by
  induction l with
  | nil => intro acc; rfl
  | cons n rest ih =>
      intro acc
      have hn : ¬ (n.isImage = true) := by
        rw [h n (by simp)]
        exact Bool.false_ne_true
      simp only [intersectFcLoop, if_neg hn, List.foldl_cons]
      exact ih (fun x hx => h x (by simp [hx])) _

theorem mergeFcLoop_error (l : List Node) (h : ∃ x ∈ l, x.isImage = true) :
    ∀ acc, mergeFcLoop acc l = .error (.typeError "Image cannot be unioned") := by
  induction l with
  | nil => simp at h
  | cons n rest ih =>
      intro acc
      by_cases hn : n.isImage = true
      · simp [mergeFcLoop, hn]
      · obtain ⟨x, hx, hxi⟩ := h
        rcases List.mem_cons.mp hx with h1 | h1
        · exact absurd (h1 ▸ hxi) hn
        · simp only [mergeFcLoop, if_neg hn]
          exact ih ⟨x, h1, hxi⟩ _

theorem aggregationLoop_eq_foldl (reducer : Reducer) (stats : List FeatStat) : ∀ acc,
    aggregationLoop acc reducer stats =
      stats.foldl (fun acc f => acc + f.properties reducer) acc := by
  induction stats with
  | nil => intro acc; rfl
  | cons f rest ih =>
      intro acc
      simp only [aggregationLoop, List.foldl_cons]
      exact ih _

theorem usesFn_intersectLoop (fname : String) (hf : ("Image.and" == fname) = false)
    (l : List Node) : ∀ acc, Node.usesFn fname (intersectLoop acc l) =
      (Node.usesFn fname acc || l.any (fun n => Node.usesFn fname n)) := by
  induction l with
  | nil => intro acc; simp [intersectLoop]
  | cons n rest ih =>
      intro acc
      simp only [intersectLoop, ih, imageAnd, Node.usesFn, Node.argsUseFn, hf,
        List.any_cons]
      simp [Bool.or_assoc]

/-! ### The claims -/

/-- C1: For every expression graph G, deserializing the serialized wire form of
G yields a graph structurally equal to G — the same function names, argument
trees and type tags, since `Node` equality is full structural equality. -/
theorem C1_serialize_roundtrip (g : Node) : deserialize (serialize g) = some g := by
  have hg0 : goodMemo ([] : List Node) := by
    intro i n hi
    simp at hi
  obtain ⟨_, hgood, hmem⟩ := serNode_spec g [] hg0
  unfold serialize deserialize
  simp only
  rw [decodeTable_encode (serNode g []) [] (serNode g []) (by simp) hgood]
  exact getElem?_idOf hmem

/-- C2: the Threshold handler builds a "greater-than t" comparison node when
t ≥ 0 and a "less-than t" comparison node when t < 0; its signature takes only
the image and the threshold, so the direction is selected solely by the sign
of t. -/
theorem C2_threshold_sign (image : Node) (t : ℚ) :
    (0 ≤ t → handle_filter_image_by_threshold image t = imageGt image (eeNumber t)) ∧
    (t < 0 → handle_filter_image_by_threshold image t = imageLt image (eeNumber t)) := by
  constructor
  · intro h
    simp [handle_filter_image_by_threshold, not_lt.mpr h]
  · intro h
    simp [handle_filter_image_by_threshold, h]

theorem C2_threshold_sign_witness :
    handle_filter_image_by_threshold (imageLoad "A") 5 =
      imageGt (imageLoad "A") (eeNumber 5) ∧
    handle_filter_image_by_threshold (imageLoad "A") (-5) =
      imageLt (imageLoad "A") (eeNumber (-5)) :=
  ⟨(C2_threshold_sign (imageLoad "A") 5).1 (by norm_num),
   (C2_threshold_sign (imageLoad "A") (-5)).2 (by norm_num)⟩

/-- C3: Boolean Union over a non-empty operand list unmasks every operand with
0 and folds left-to-right with pairwise logical OR; in particular the root of
`union([A, B, C])` combines `(A OR B)` with `C`. -/
theorem C3_union_fold (a : Node) (l : List Node) :
    handle_union_binary_images (a :: l) =
      .ok (l.foldl (fun u n => imageOr u (imageUnmask n (eeNumber 0)))
        (imageUnmask a (eeNumber 0))) ∧
    ∀ b c : Node, handle_union_binary_images [a, b, c] =
      .ok (imageOr
        (imageOr (imageUnmask a (eeNumber 0)) (imageUnmask b (eeNumber 0)))
        (imageUnmask c (eeNumber 0))) := by
  constructor
  · simp only [handle_union_binary_images, unionLoop_eq_foldl]
  · intro b c
    rfl

/-- C4: Boolean Intersection over a non-empty operand list folds left-to-right
with logical AND — the root of `intersect([A, B, C])` combines `(A AND B)`
with `C` — and introduces no unmask node: the result mentions
`Image.unmask` only where an operand already did. -/
theorem C4_intersect_fold (a : Node) (l : List Node) :
    handle_intersect_binary_images (a :: l) =
      .ok (l.foldl (fun inter n => imageAnd inter n) a) ∧
    (∀ b c : Node, handle_intersect_binary_images [a, b, c] =
      .ok (imageAnd (imageAnd a b) c)) ∧
    Node.usesFn "Image.unmask" (l.foldl (fun inter n => imageAnd inter n) a) =
      (Node.usesFn "Image.unmask" a || l.any (fun n => Node.usesFn "Image.unmask" n)) := by
  refine ⟨?_, ?_, ?_⟩
  · simp only [handle_intersect_binary_images, intersectLoop_eq_foldl]
  · intro b c
    rfl
  · rw [← intersectLoop_eq_foldl]
    exact usesFn_intersectLoop "Image.unmask" rfl l a

/-- C5: every list-folding handler (boolean union, boolean intersection,
vector intersect, vector merge) fails on an empty input list with the
index/bounds error raised by indexing the first element. -/
theorem C5_empty_list_index_error :
    handle_union_binary_images [] = .error .indexOutOfRange ∧
    handle_intersect_binary_images [] = .error .indexOutOfRange ∧
    handle_intersect_feature_collections [] = .error .indexOutOfRange ∧
    handle_merge_feature_collections [] = .error .indexOutOfRange :=
  ⟨rfl, rfl, rfl, rfl⟩

/-- C6: Vector Intersect and Vector Merge fail with a type-mismatch error on
any input list containing an Image graph, returning no constructed graph. -/
theorem C6_type_rejection (l : List Node) (h : ∃ x ∈ l, x.isImage = true) :
    handle_intersect_feature_collections l =
      .error (.typeError "Image cannot be intersected") ∧
    handle_merge_feature_collections l =
      .error (.typeError "Image cannot be unioned") := by
  obtain ⟨x, hx, hxi⟩ := h
  cases l with
  | nil => simp at hx
  | cons first rest =>
      constructor
      · by_cases hf : first.isImage = true
        · simp [handle_intersect_feature_collections, hf]
        · have hxr : x ∈ rest := by
            rcases List.mem_cons.mp hx with h1 | h1
            · exact absurd (h1 ▸ hxi) hf
            · exact h1
          simp only [handle_intersect_feature_collections, if_neg hf]
          exact intersectFcLoop_error rest ⟨x, hxr, hxi⟩ first
      · by_cases hf : first.isImage = true
        · simp [handle_merge_feature_collections, hf]
        · have hxr : x ∈ rest := by
            rcases List.mem_cons.mp hx with h1 | h1
            · exact absurd (h1 ▸ hxi) hf
            · exact h1
          simp only [handle_merge_feature_collections, if_neg hf]
          exact mergeFcLoop_error rest ⟨x, hxr, hxi⟩ first

theorem C6_type_rejection_witness :
    handle_intersect_feature_collections [imageLoad "raster", fcLoadTable "vector"] =
      .error (.typeError "Image cannot be intersected") ∧
    handle_merge_feature_collections [imageLoad "raster", fcLoadTable "vector"] =
      .error (.typeError "Image cannot be unioned") :=
  C6_type_rejection [imageLoad "raster", fcLoadTable "vector"]
    ⟨imageLoad "raster", by simp, by decide⟩

/-- C7: Vector Intersect over a non-empty all-vector input folds
left-to-right, at each step mapping every feature of the accumulator through
`intersect_feature` against the next collection; `intersect_feature` takes the
geometric intersection of the feature's geometry with the collection's
geometry at the fixed tolerance `ErrorMargin(100)` and copies the original
feature's properties onto the result. -/
theorem C7_vector_intersect (a : Node) (l : List Node)
    (ha : a.isImage = false) (hl : ∀ x ∈ l, x.isImage = false) :
    handle_intersect_feature_collections (a :: l) =
      .ok (l.foldl
        (fun acc fc => fcMap acc (intersect_feature (Node.argRef mappedVarName) fc)) a) ∧
    ∀ f fc : Node, intersect_feature f fc =
      featureCtor (copyPropertiesNode
        (featureCtor
          (geomIntersection (featureGeometry f) (collGeometry fc) (errorMargin 100)))
        f) := by
  constructor
  · have hna : ¬ (a.isImage = true) := by
      rw [ha]
      exact Bool.false_ne_true
    simp only [handle_intersect_feature_collections, if_neg hna]
    exact intersectFcLoop_ok l hl a
  · intro f fc
    rfl

theorem C7_vector_intersect_witness :
    handle_intersect_feature_collections [fcLoadTable "v1", fcLoadTable "v2"] =
      .ok ([fcLoadTable "v2"].foldl
        (fun acc fc => fcMap acc (intersect_feature (Node.argRef mappedVarName) fc))
        (fcLoadTable "v1")) ∧
    ∀ f fc : Node, intersect_feature f fc =
      featureCtor (copyPropertiesNode
        (featureCtor
          (geomIntersection (featureGeometry f) (collGeometry fc) (errorMargin 100)))
        f) :=
  C7_vector_intersect (fcLoadTable "v1") [fcLoadTable "v2"] (by decide) (by decide)

/-- C8: for area_type country, the resolved zone graph's simplification
tolerance is the embedded conditional node `If(shape_area.gt(33), 10000, 100)`
— built from the fixed constants `TH_SHAPE_AREA = 33`, 10000 and 100 for every
call — which the remote evaluator resolves to 10000 exactly when the matched
boundary's Shape_Area exceeds 33 and to 100 otherwise; for area_type admin1
the boundary collection is filtered by name and the graph contains no
simplification node. -/
theorem C8_zone_tolerance (getCode : String → String) (area_name : String) (sa : ℚ) :
    zoneToleranceArg (handle_get_zone_of_area getCode area_name .country) =
      some (ifNode
        (numberGt
          (getNumberNode
            (collFirst (fcFilter (fcLoadTable COUNTRY_BOUNDRIES_DATASET)
              (filterEq "iso3" (Node.const (Lit.str (getCode area_name))))))
            "Shape_Area")
          (eeNumber TH_SHAPE_AREA))
        (eeNumber 10000) (eeNumber 100)) ∧
    evalToleranceNode sa
      (ifNode
        (numberGt
          (getNumberNode
            (collFirst (fcFilter (fcLoadTable COUNTRY_BOUNDRIES_DATASET)
              (filterEq "iso3" (Node.const (Lit.str (getCode area_name))))))
            "Shape_Area")
          (eeNumber TH_SHAPE_AREA))
        (eeNumber 10000) (eeNumber 100)) =
      some (if TH_SHAPE_AREA < sa then 10000 else 100) ∧
    handle_get_zone_of_area getCode area_name .admin1 =
      fcFilter (fcLoadTable ADMIN_LEVEL_1_BOUNDRIES_DATASET)
        (filterEq "shapeName" (Node.const (Lit.str area_name))) ∧
    Node.usesFn "Geometry.simplify" (handle_get_zone_of_area getCode area_name .admin1) =
      false := by
  refine ⟨rfl, rfl, rfl, rfl⟩

/-- C9 counterexample: a remote round-trip that succeeds but returns zero
per-feature statistics (an empty feature list) makes Region Reduce return the
sum 0 rather than fail, so the handler does not fail in every case where the
round-trip yields no per-feature statistics. -/
theorem C9_counterexample :
    handle_reduce_image (fun _ => some []) (imageLoad "A") (fcLoadTable "R")
      Reducer.sum 47000 = .ok 0 ∧
    ∀ e, handle_reduce_image (fun _ => some []) (imageLoad "A") (fcLoadTable "R")
      Reducer.sum 47000 ≠ .error e := by
  refine ⟨rfl, fun e h => ?_⟩
  rw [show handle_reduce_image (fun _ => some []) (imageLoad "A") (fcLoadTable "R")
      Reducer.sum 47000 = .ok 0 from rfl] at h
  exact Except.noConfusion h

/-- C9 (amended): Region Reduce returns the client-side sum of the reducer's
per-feature values over the statistics returned by the single round-trip, and
fails with the reported (non-retried) "No statistics found" error exactly when
the round-trip returns no result at all; a round-trip returning an empty
feature list yields the sum 0, not an error. -/
theorem C9_reduce_aggregation (getInfo : Node → Option (List FeatStat))
    (image fc : Node) (reducer : Reducer) (scale : ℚ) :
    (getInfo (reduceRegionsNode image fc reducer scale) = none →
      handle_reduce_image getInfo image fc reducer scale =
        .error (.valueError "No statistics found")) ∧
    (∀ stats, getInfo (reduceRegionsNode image fc reducer scale) = some stats →
      handle_reduce_image getInfo image fc reducer scale =
        .ok (stats.foldl (fun acc f => acc + f.properties reducer) 0)) := by
  constructor
  · intro h
    simp [handle_reduce_image, h]
  · intro stats h
    simp [handle_reduce_image, h, aggregationLoop_eq_foldl]

theorem C9_reduce_aggregation_witness :
    handle_reduce_image (fun _ => none) (imageLoad "A") (fcLoadTable "R")
      Reducer.sum 100 = .error (.valueError "No statistics found") ∧
    handle_reduce_image (fun _ => some [⟨fun _ => 7⟩]) (imageLoad "A") (fcLoadTable "R")
      Reducer.sum 100 =
      .ok (([⟨fun _ => 7⟩] : List FeatStat).foldl
        (fun acc f => acc + f.properties Reducer.sum) 0) :=
  ⟨(C9_reduce_aggregation (fun _ => none) (imageLoad "A") (fcLoadTable "R")
      Reducer.sum 100).1 rfl,
   (C9_reduce_aggregation (fun _ => some [⟨fun _ => 7⟩]) (imageLoad "A") (fcLoadTable "R")
      Reducer.sum 100).2 [⟨fun _ => 7⟩] rfl⟩

/-- C10: among non-mosaic datasets, exactly the dataset named
agricultural_drought is returned masked to pixels whose value is ≤ 100
(`image.updateMask(image.lte(100))`); every other non-mosaic dataset yields
the bare single-image load node. -/
theorem C10_agricultural_drought_mask (lookup : String → Option DatasetMetadata)
    (dataset : String) (meta : DatasetMetadata)
    (hl : lookup dataset = some meta) (hm : meta.mosaic = false) :
    handle_get_dataset_image lookup dataset =
      .ok (if dataset = "agricultural_drought"
        then imageUpdateMask (imageLoad meta.asset_id)
          (imageLte (imageLoad meta.asset_id) (eeNumber 100))
        else imageLoad meta.asset_id) := by
  simp only [handle_get_dataset_image, hl, hm, Bool.false_eq_true, if_false]
  split <;> rfl

theorem C10_agricultural_drought_mask_witness :
    handle_get_dataset_image (fun _ => some ⟨"assets/agdrought", false⟩)
      "agricultural_drought" =
      .ok (imageUpdateMask (imageLoad "assets/agdrought")
        (imageLte (imageLoad "assets/agdrought") (eeNumber 100))) ∧
    handle_get_dataset_image (fun _ => some ⟨"assets/other", false⟩) "flood" =
      .ok (imageLoad "assets/other") := by
  constructor
  · have := C10_agricultural_drought_mask (fun _ => some ⟨"assets/agdrought", false⟩)
      "agricultural_drought" ⟨"assets/agdrought", false⟩ rfl rfl
    simpa using this
  · have := C10_agricultural_drought_mask (fun _ => some ⟨"assets/other", false⟩)
      "flood" ⟨"assets/other", false⟩ rfl rfl
    simpa using this

end GeeMcp
